import Mathlib

/-!
Shallow embedding of the ink! ERC-20 contract in `src/lib.rs` (qqliaoxin/ink-erc20).

Modelling choices:
- `AccountId` is modelled as `Nat` (the source treats it as an opaque,
  comparable map key).
- `Balance` is the Rust `u128`; we model it as `Nat`, with the one arithmetic
  operation where overflow matters (the credit `to_balance + value` in
  `transfer_from_to`) going through an explicit checked addition bounded by
  `2 ^ 128`.
- `ink::storage::Mapping` is modelled as an association list with
  overwrite-on-insert semantics; `get` returns the first binding and absence
  means the default value `0` (`unwrap_or_default`).
- Event emission (`Self::env().emit_event(...)`) is modelled as appending to an
  event log carried in the state.
- A contract message that can panic (checked-arithmetic overflow) returns
  `Option`: `none` models the fatal trap, `some (s, r)` the new state together
  with the ERC-20 `Result`.
-/

/-- A map lookup: first binding for the key, as in `Mapping::get`. -/
def mget {α : Type} [DecidableEq α] : List (α × Nat) → α → Option Nat
  | [], _ => none
  | (k', v') :: rest, k => if k = k' then some v' else mget rest k

/-- A map insert with overwrite semantics, as in `Mapping::insert`. -/
def minsert {α : Type} [DecidableEq α] : List (α × Nat) → α → Nat → List (α × Nat)
  | [], k, v => [(k, v)]
  | (k', v') :: rest, k, v =>
      if k = k' then (k, v) :: rest else (k', v') :: minsert rest k v

/-- Lookup defaulting to zero, as in `get(...).unwrap_or_default()`. -/
def mgetD {α : Type} [DecidableEq α] (m : List (α × Nat)) (k : α) : Nat :=
  (mget m k).getD 0

/-- The sum of all values bound in the map (absent keys count as zero). -/
def sumValues {α : Type} (m : List (α × Nat)) : Nat :=
  (m.map Prod.snd).sum

/-- The events the contract emits: `Transfer { from, to, value }` and
`Approval { owner, spender, value }`. -/
inductive Event where
  | transferEv (src : Option Nat) (dst : Option Nat) (value : Nat)
  | approvalEv (owner : Nat) (spender : Nat) (value : Nat)
deriving DecidableEq

/-- The ERC-20 error type of `src/lib.rs`. -/
inductive Error where
  | InsufficientBalance
  | InsufficientAllowance
deriving DecidableEq

/-- The ERC-20 `Result<()>` of a message. -/
inductive TxResult where
  | ok
  | err (e : Error)
deriving DecidableEq

/-- The `Erc20` storage struct, together with the log of emitted events. -/
structure Erc20 where
  total_supply : Nat
  balances : List (Nat × Nat)
  allowances : List ((Nat × Nat) × Nat)
  events : List Event
deriving DecidableEq

/-- `balance_of_impl`: the stored balance, or `0` if the account is absent. -/
def balance_of_impl (s : Erc20) (owner : Nat) : Nat :=
  mgetD s.balances owner

/-- `balance_of` delegates to `balance_of_impl`. -/
def balance_of (s : Erc20) (owner : Nat) : Nat :=
  balance_of_impl s owner

/-- `allowance_impl`: the stored allowance for `(owner, spender)`, or `0`. -/
def allowance_impl (s : Erc20) (owner spender : Nat) : Nat :=
  mgetD s.allowances (owner, spender)

/-- `allowance` delegates to `allowance_impl`. -/
def allowance (s : Erc20) (owner spender : Nat) : Nat :=
  allowance_impl s owner spender

/-- The constructor `new`: credits the caller with the whole supply, emits the
mint `Transfer` event and starts with empty allowances. -/
def Erc20.new (total_supply caller : Nat) : Erc20 :=
  { total_supply := total_supply
    balances := minsert [] caller total_supply
    allowances := []
    events := [Event.transferEv none (some caller) total_supply] }

/-- Checked `u128` addition.

Modelled from the spec: the build profile that turns the `+` on line 209 of
`src/lib.rs` into checked (panicking) rather than wrapping arithmetic lives in
the crate's Cargo manifest, which is not under `src/`. Per the spec (§4.6,
§7), the increment to the recipient's balance is performed with overflow
detection and an overflow surfaces as a fatal integrity failure, never a
wrapped balance; `none` models that fatal failure. -/
def checkedAdd (a b : Nat) : Option Nat :=
  if a + b < 2 ^ 128 then some (a + b) else none

/-- The shared balance-move primitive `transfer_from_to` (lines 196-216 of
`src/lib.rs`): check the source balance, debit, then read and credit the
recipient, then emit the `Transfer` event. `none` is the fatal overflow trap
of the checked credit. -/
def transfer_from_to (s : Erc20) (src dst : Nat) (value : Nat) :
    Option (Erc20 × TxResult) :=
  let from_balance := balance_of_impl s src
  if from_balance < value then
    some (s, .err .InsufficientBalance)
  else
    let s1 : Erc20 := { s with balances := minsert s.balances src (from_balance - value) }
    let to_balance := balance_of_impl s1 dst
    match checkedAdd to_balance value with
    | none => none
    | some nb =>
        some ({ s1 with
                  balances := minsert s1.balances dst nb
                  events := s1.events ++ [Event.transferEv (some src) (some dst) value] },
              .ok)

/-- `transfer`: delegates to `transfer_from_to` with `from` the caller. -/
def transfer (s : Erc20) (caller dst value : Nat) : Option (Erc20 × TxResult) :=
  transfer_from_to s caller dst value

/-- `approve`: overwrites the allowance for `(caller, spender)` with `value`,
emits the `Approval` event, and always returns `Ok`. -/
def approve (s : Erc20) (caller spender value : Nat) : Erc20 × TxResult :=
  ({ s with
       allowances := minsert s.allowances (caller, spender) value
       events := s.events ++ [Event.approvalEv caller spender value] },
   .ok)

/-- `transfer_from` (lines 169-186 of `src/lib.rs`): check the allowance for
`(from, caller)`, run the balance move (propagating its error via `?`), then
store `allowance - value`. -/
def transfer_from (s : Erc20) (caller src dst value : Nat) :
    Option (Erc20 × TxResult) :=
  let al := allowance_impl s src caller
  if al < value then
    some (s, .err .InsufficientAllowance)
  else
    match transfer_from_to s src dst value with
    | none => none
    | some (s1, .err e) => some (s1, .err e)
    | some (s1, .ok) =>
        some ({ s1 with allowances := minsert s1.allowances (src, caller) (al - value) },
              .ok)

/-- One invocation of a mutating message, with its caller. -/
inductive Op where
  | transferOp (caller dst value : Nat)
  | approveOp (caller spender value : Nat)
  | transferFromOp (caller src dst value : Nat)
deriving DecidableEq

/-- Apply one message to the state; `none` is the fatal overflow trap.
A message that returns an ERC-20 error still yields its (unchanged) state. -/
def applyOp (s : Erc20) : Op → Option Erc20
  | .transferOp caller dst value => (transfer s caller dst value).map Prod.fst
  | .approveOp caller spender value => some (approve s caller spender value).fst
  | .transferFromOp caller src dst value => (transfer_from s caller src dst value).map Prod.fst

/-- Apply a sequence of messages in order. -/
def applyOps (s : Erc20) : List Op → Option Erc20
  | [] => some s
  | op :: rest =>
      match applyOp s op with
      | none => none
      | some s' => applyOps s' rest

/-! ## Map lemmas -/

theorem mget_minsert_self {α : Type} [DecidableEq α] (m : List (α × Nat)) (k : α) (v : Nat) :
    mget (minsert m k v) k = some v := by
  induction m with
  | nil => simp [minsert, mget]
  | cons p rest ih =>
    obtain ⟨k', v'⟩ := p
    by_cases h : k = k'
    · simp [minsert, mget, h]
    · simp [minsert, mget, h, ih]

theorem mget_minsert_ne {α : Type} [DecidableEq α] (m : List (α × Nat)) (k : α) (v : Nat)
    (k'' : α) (hne : k'' ≠ k) : mget (minsert m k v) k'' = mget m k'' := by
  induction m with
  | nil => simp [minsert, mget, hne]
  | cons p rest ih =>
    obtain ⟨k', v'⟩ := p
    by_cases h : k = k'
    · subst h
      simp [minsert, mget, hne]
    · by_cases h2 : k'' = k'
      · simp [minsert, mget, h, h2]
      · simp [minsert, mget, h, h2, ih]

theorem mgetD_minsert_self {α : Type} [DecidableEq α] (m : List (α × Nat)) (k : α) (v : Nat) :
    mgetD (minsert m k v) k = v := by
  simp [mgetD, mget_minsert_self]

theorem mgetD_minsert_ne {α : Type} [DecidableEq α] (m : List (α × Nat)) (k : α) (v : Nat)
    (k'' : α) (hne : k'' ≠ k) : mgetD (minsert m k v) k'' = mgetD m k'' := by
  simp [mgetD, mget_minsert_ne m k v k'' hne]

theorem sumValues_minsert {α : Type} [DecidableEq α] (m : List (α × Nat)) (k : α) (v : Nat) :
    sumValues (minsert m k v) + mgetD m k = sumValues m + v := by
  induction m with
  | nil => simp [minsert, sumValues, mgetD, mget]
  | cons p rest ih =>
    obtain ⟨k', v'⟩ := p
    by_cases h : k = k'
    · subst h
      simp [minsert, sumValues, mgetD, mget]
      omega
    · simp only [minsert, if_neg h, sumValues, List.map_cons, List.sum_cons, mgetD, mget]
      simp only [sumValues, mgetD] at ih
      omega

theorem mgetD_le_sumValues {α : Type} [DecidableEq α] (m : List (α × Nat)) (k : α) :
    mgetD m k ≤ sumValues m := by
  induction m with
  | nil => simp [mgetD, mget, sumValues]
  | cons p rest ih =>
    obtain ⟨k', v'⟩ := p
    by_cases h : k = k'
    · simp [mgetD, mget, h, sumValues]
    · simp only [mgetD, mget, if_neg h, sumValues, List.map_cons, List.sum_cons]
      simp only [mgetD, sumValues] at ih
      omega

/-- Debiting an account by `value ≤` its balance lowers the map sum by `value`. -/
theorem sumValues_debit {α : Type} [DecidableEq α] (m : List (α × Nat)) (k : α) (value : Nat)
    (h : value ≤ mgetD m k) :
    sumValues (minsert m k (mgetD m k - value)) + value = sumValues m := by
  have h1 := sumValues_minsert m k (mgetD m k - value)
  omega

/-! ## Characterizations of the balance-move primitive -/

theorem transfer_from_to_insufficient (s : Erc20) (src dst value : Nat)
    (h : balance_of_impl s src < value) :
    transfer_from_to s src dst value = some (s, .err .InsufficientBalance) := by
  simp only [transfer_from_to]
  rw [if_pos h]

theorem transfer_from_to_success (s : Erc20) (src dst value : Nat)
    (h : ¬ balance_of_impl s src < value)
    (h2 : mgetD (minsert s.balances src (balance_of_impl s src - value)) dst + value < 2 ^ 128) :
    transfer_from_to s src dst value =
      some ({ total_supply := s.total_supply
              balances := minsert (minsert s.balances src (balance_of_impl s src - value)) dst
                (mgetD (minsert s.balances src (balance_of_impl s src - value)) dst + value)
              allowances := s.allowances
              events := s.events ++ [Event.transferEv (some src) (some dst) value] }, .ok) := by
  simp only [balance_of_impl] at h h2
  simp only [transfer_from_to, checkedAdd, balance_of_impl, if_neg h, if_pos h2]

theorem transfer_from_to_overflow (s : Erc20) (src dst value : Nat)
    (h : ¬ balance_of_impl s src < value)
    (h2 : ¬ mgetD (minsert s.balances src (balance_of_impl s src - value)) dst + value < 2 ^ 128) :
    transfer_from_to s src dst value = none := by
  simp only [balance_of_impl] at h h2
  simp only [transfer_from_to, checkedAdd, balance_of_impl, if_neg h, if_neg h2]

/-- After the debit, crediting any recipient stays below `2 ^ 128` whenever the
whole balance sum does. -/
theorem credit_bound (s : Erc20) (src dst value : Nat)
    (hfb : value ≤ balance_of_impl s src)
    (hwf : sumValues s.balances < 2 ^ 128) :
    mgetD (minsert s.balances src (balance_of_impl s src - value)) dst + value < 2 ^ 128 := by
  simp only [balance_of_impl] at hfb ⊢
  have hd := sumValues_debit s.balances src value hfb
  have hle := mgetD_le_sumValues (minsert s.balances src (mgetD s.balances src - value)) dst
  omega

/-- Every non-trapping outcome of the balance move preserves the total-supply
field, the allowance map, and the sum of all balances. -/
theorem transfer_from_to_frame (s : Erc20) (src dst value : Nat) (s' : Erc20) (r : TxResult)
    (h : transfer_from_to s src dst value = some (s', r)) :
    s'.total_supply = s.total_supply ∧ s'.allowances = s.allowances ∧
    sumValues s'.balances = sumValues s.balances := by
  by_cases hlt : balance_of_impl s src < value
  · rw [transfer_from_to_insufficient s src dst value hlt] at h
    simp only [Option.some.injEq, Prod.mk.injEq] at h
    obtain ⟨rfl, -⟩ := h
    exact ⟨rfl, rfl, rfl⟩
  · by_cases hov :
      mgetD (minsert s.balances src (balance_of_impl s src - value)) dst + value < 2 ^ 128
    · rw [transfer_from_to_success s src dst value hlt hov] at h
      simp only [Option.some.injEq, Prod.mk.injEq] at h
      obtain ⟨rfl, -⟩ := h
      refine ⟨rfl, rfl, ?_⟩
      have hfb : value ≤ balance_of_impl s src := le_of_not_lt hlt
      simp only [balance_of_impl] at hfb
      have hd := sumValues_debit s.balances src value hfb
      have hm := sumValues_minsert (minsert s.balances src (mgetD s.balances src - value)) dst
        (mgetD (minsert s.balances src (mgetD s.balances src - value)) dst + value)
      simp only [balance_of_impl]
      omega
    · rw [transfer_from_to_overflow s src dst value hlt hov] at h
      cases h

/-- Every non-trapping outcome of `transfer_from` preserves the total-supply
field and the sum of all balances. -/
theorem transfer_from_frame (s : Erc20) (caller src dst value : Nat) (s' : Erc20) (r : TxResult)
    (h : transfer_from s caller src dst value = some (s', r)) :
    s'.total_supply = s.total_supply ∧ sumValues s'.balances = sumValues s.balances := by
  simp only [transfer_from] at h
  by_cases hal : allowance_impl s src caller < value
  · rw [if_pos hal] at h
    simp only [Option.some.injEq, Prod.mk.injEq] at h
    obtain ⟨rfl, -⟩ := h
    exact ⟨rfl, rfl⟩
  · rw [if_neg hal] at h
    rcases hE : transfer_from_to s src dst value with - | ⟨s1, r1⟩
    · rw [hE] at h
      cases h
    · rw [hE] at h
      have hframe := transfer_from_to_frame s src dst value s1 r1 hE
      cases r1 with
      | ok =>
        simp only [Option.some.injEq, Prod.mk.injEq] at h
        obtain ⟨rfl, -⟩ := h
        exact ⟨hframe.1, hframe.2.2⟩
      | err e =>
        simp only [Option.some.injEq, Prod.mk.injEq] at h
        obtain ⟨rfl, -⟩ := h
        exact ⟨hframe.1, hframe.2.2⟩

/-- One applied message preserves the total-supply field and the balance sum. -/
theorem applyOp_frame (s : Erc20) (op : Op) (s' : Erc20) (h : applyOp s op = some s') :
    s'.total_supply = s.total_supply ∧ sumValues s'.balances = sumValues s.balances := by
  cases op with
  | transferOp caller dst value =>
    simp only [applyOp, transfer] at h
    rcases hE : transfer_from_to s caller dst value with - | ⟨s1, r1⟩
    · rw [hE] at h
      cases h
    · rw [hE] at h
      simp only [Option.map_some', Option.some.injEq] at h
      subst h
      have hframe := transfer_from_to_frame s caller dst value s1 r1 hE
      exact ⟨hframe.1, hframe.2.2⟩
  | approveOp caller spender value =>
    simp only [applyOp, approve, Option.some.injEq] at h
    subst h
    exact ⟨rfl, rfl⟩
  | transferFromOp caller src dst value =>
    simp only [applyOp] at h
    rcases hE : transfer_from s caller src dst value with - | ⟨s1, r1⟩
    · rw [hE] at h
      cases h
    · rw [hE] at h
      simp only [Option.map_some', Option.some.injEq] at h
      subst h
      exact transfer_from_frame s caller src dst value s1 r1 hE

/-- A sequence of applied messages preserves the total-supply field and the
balance sum. -/
theorem applyOps_frame (ops : List Op) (s : Erc20) (s' : Erc20)
    (h : applyOps s ops = some s') :
    s'.total_supply = s.total_supply ∧ sumValues s'.balances = sumValues s.balances := by
  induction ops generalizing s with
  | nil =>
    simp only [applyOps, Option.some.injEq] at h
    subst h
    exact ⟨rfl, rfl⟩
  | cons op rest ih =>
    simp only [applyOps] at h
    rcases hE : applyOp s op with - | s1
    · rw [hE] at h
      cases h
    · rw [hE] at h
      have h1 := applyOp_frame s op s1 hE
      have h2 := ih s1 h
      exact ⟨h2.1.trans h1.1, h2.2.trans h1.2⟩

/-! ## Claim theorems -/

/-- C1: in every state reachable by constructing the ledger with
`new(initialSupply)` (credited to the creator) and then applying any sequence
of `transfer`, `approve`, and `transfer_from` messages, the sum of all account
balances (absent entries counting as zero) equals `total_supply` exactly. -/
theorem conservation_of_total_supply (supply caller : Nat) (ops : List Op) (s' : Erc20)
    (h : applyOps (Erc20.new supply caller) ops = some s') :
    sumValues s'.balances = s'.total_supply := by
  have hframe := applyOps_frame ops (Erc20.new supply caller) s' h
  have h1 : sumValues (Erc20.new supply caller).balances = supply := by
    simp [Erc20.new, minsert, sumValues]
  have h2 : (Erc20.new supply caller).total_supply = supply := rfl
  omega

/-- Witness for C1 at a concrete run: supply 10000, a transfer, an approval
and a delegated transfer. -/
theorem conservation_of_total_supply_witness :
    sumValues ((applyOps (Erc20.new 10000 0)
        [Op.transferOp 0 1 12, Op.approveOp 0 1 100, Op.transferFromOp 1 0 2 40]).getD
        (Erc20.new 0 0)).balances =
      ((applyOps (Erc20.new 10000 0)
        [Op.transferOp 0 1 12, Op.approveOp 0 1 100, Op.transferFromOp 1 0 2 40]).getD
        (Erc20.new 0 0)).total_supply :=
  conservation_of_total_supply 10000 0
    [Op.transferOp 0 1 12, Op.approveOp 0 1 100, Op.transferFromOp 1 0 2 40] _ (by decide)

/-- C3: `transfer_from` with `allowance(from, caller) < value` returns
`InsufficientAllowance` and leaves the entire state unchanged (the returned
state is `s` itself), even when the source balance is at least `value`. -/
theorem transfer_from_insufficient_allowance (s : Erc20) (caller src dst value : Nat)
    (hal : allowance_impl s src caller < value) :
    transfer_from s caller src dst value = some (s, .err .InsufficientAllowance) := by
  simp only [transfer_from, if_pos hal]

/-- Witness for C3: allowance 100, request 150, source balance 10000 suffices. -/
theorem transfer_from_insufficient_allowance_witness :
    allowance_impl (approve (Erc20.new 10000 0) 0 1 100).1 0 1 < 150 ∧
      150 ≤ balance_of_impl (approve (Erc20.new 10000 0) 0 1 100).1 0 ∧
      transfer_from (approve (Erc20.new 10000 0) 0 1 100).1 1 0 2 150 =
        some ((approve (Erc20.new 10000 0) 0 1 100).1, .err .InsufficientAllowance) :=
  ⟨by decide, by decide,
    transfer_from_insufficient_allowance (approve (Erc20.new 10000 0) 0 1 100).1 1 0 2 150
      (by decide)⟩

/-- C6: `approve` is overwrite, not additive: after two consecutive approvals
for the same `(owner, spender)` the stored allowance is the second value, and
`approve` returns `Ok` on every input. -/
theorem approve_overwrites (s : Erc20) (owner spender v1 v2 : Nat) :
    (approve s owner spender v1).2 = .ok ∧
    (approve (approve s owner spender v1).1 owner spender v2).2 = .ok ∧
    allowance_impl (approve (approve s owner spender v1).1 owner spender v2).1 owner spender
      = v2 := by
  refine ⟨rfl, rfl, ?_⟩
  simp [approve, allowance_impl, mgetD_minsert_self]

/-- C8: the total-supply scalar is write-once: after any message sequence from
construction, the `total_supply` field still holds the constructed value. -/
theorem total_supply_write_once (supply caller : Nat) (ops : List Op) (s' : Erc20)
    (h : applyOps (Erc20.new supply caller) ops = some s') :
    s'.total_supply = supply :=
  (applyOps_frame ops (Erc20.new supply caller) s' h).1

/-- Witness for C8 at a concrete run mixing all three message kinds. -/
theorem total_supply_write_once_witness :
    ((applyOps (Erc20.new 555 3)
        [Op.approveOp 3 4 20, Op.transferFromOp 4 3 5 7, Op.transferOp 5 3 7]).getD
        (Erc20.new 0 0)).total_supply = 555 :=
  total_supply_write_once 555 3
    [Op.approveOp 3 4 20, Op.transferFromOp 4 3 5 7, Op.transferOp 5 3 7] _ (by decide)

/-- C9: the allowance check applies even when the caller owns the funds:
`transfer_from(caller = A, from = A, ...)` with `allowance(A, A) < value` fails
with `InsufficientAllowance` despite a sufficient balance. -/
theorem transfer_from_owner_needs_self_allowance (s : Erc20) (A dst value : Nat)
    (hv : 0 < value) (hal : allowance_impl s A A < value)
    (hbal : value ≤ balance_of_impl s A) :
    transfer_from s A A dst value = some (s, .err .InsufficientAllowance) := by
  simp only [transfer_from, if_pos hal]

/-- Witness for C9: the creator holds 10000 but has no self-allowance. -/
theorem transfer_from_owner_needs_self_allowance_witness :
    0 < 5 ∧ allowance_impl (Erc20.new 10000 0) 0 0 < 5 ∧
      5 ≤ balance_of_impl (Erc20.new 10000 0) 0 ∧
      transfer_from (Erc20.new 10000 0) 0 0 1 5 =
        some (Erc20.new 10000 0, .err .InsufficientAllowance) :=
  ⟨by decide, by decide, by decide,
    transfer_from_owner_needs_self_allowance (Erc20.new 10000 0) 0 1 5 (by decide) (by decide)
      (by decide)⟩

/-- C2: when the allowance check passes, `transfer_from` either propagates
`InsufficientBalance` with the state unchanged, or succeeds and stores exactly
the prior allowance minus `value` — the balance move and the allowance
decrement happen together or not at all. -/
theorem transfer_from_allowance_consumption (s : Erc20) (caller src dst value : Nat)
    (hal : value ≤ allowance_impl s src caller)
    (hwf : sumValues s.balances < 2 ^ 128) :
    (balance_of_impl s src < value →
       transfer_from s caller src dst value = some (s, .err .InsufficientBalance)) ∧
    (value ≤ balance_of_impl s src →
       ∃ s', transfer_from s caller src dst value = some (s', .ok) ∧
         allowance_impl s' src caller = allowance_impl s src caller - value ∧
         sumValues s'.balances = sumValues s.balances) := by
  have haln : ¬ allowance_impl s src caller < value := not_lt.mpr hal
  constructor
  · intro hlt
    simp only [transfer_from, if_neg haln, transfer_from_to_insufficient s src dst value hlt]
  · intro hge
    have hb := credit_bound s src dst value hge hwf
    have hE := transfer_from_to_success s src dst value (not_lt.mpr hge) hb
    refine ⟨{ total_supply := s.total_supply
              balances := minsert (minsert s.balances src (balance_of_impl s src - value)) dst
                (mgetD (minsert s.balances src (balance_of_impl s src - value)) dst + value)
              allowances := minsert s.allowances (src, caller)
                (allowance_impl s src caller - value)
              events := s.events ++ [Event.transferEv (some src) (some dst) value] },
            ?_, ?_, ?_⟩
    · simp only [transfer_from, if_neg haln, hE]
    · simp [allowance_impl, mgetD_minsert_self]
    · exact (transfer_from_to_frame s src dst value _ _ hE).2.2

/-- Witness for C2: after `approve(A = 0, B = 1, 100)` on a supply-100 ledger,
a delegated transfer of 40 by caller 1 leaves allowance 60. -/
theorem transfer_from_allowance_consumption_witness :
    (balance_of_impl (approve (Erc20.new 100 0) 0 1 100).1 0 < 40 →
       transfer_from (approve (Erc20.new 100 0) 0 1 100).1 1 0 2 40 =
         some ((approve (Erc20.new 100 0) 0 1 100).1, .err .InsufficientBalance)) ∧
    (40 ≤ balance_of_impl (approve (Erc20.new 100 0) 0 1 100).1 0 →
       ∃ s', transfer_from (approve (Erc20.new 100 0) 0 1 100).1 1 0 2 40 = some (s', .ok) ∧
         allowance_impl s' 0 1 =
           allowance_impl (approve (Erc20.new 100 0) 0 1 100).1 0 1 - 40 ∧
         sumValues s'.balances = sumValues (approve (Erc20.new 100 0) 0 1 100).1.balances) :=
  transfer_from_allowance_consumption (approve (Erc20.new 100 0) 0 1 100).1 1 0 2 40
    (by decide) (by decide)

/-- C4: `transfer` fails with `InsufficientBalance` and an unchanged state when
the caller's balance is below `value`; otherwise it succeeds, debiting the
caller and crediting the recipient by exactly `value`, leaving every other
balance and the balance sum unchanged. -/
theorem transfer_balance_check (s : Erc20) (caller dst value : Nat)
    (hwf : sumValues s.balances < 2 ^ 128) :
    (balance_of_impl s caller < value →
       transfer s caller dst value = some (s, .err .InsufficientBalance)) ∧
    (value ≤ balance_of_impl s caller → caller ≠ dst →
       ∃ s', transfer s caller dst value = some (s', .ok) ∧
         balance_of_impl s' caller = balance_of_impl s caller - value ∧
         balance_of_impl s' dst = balance_of_impl s dst + value ∧
         sumValues s'.balances = sumValues s.balances ∧
         ∀ a, a ≠ caller → a ≠ dst → balance_of_impl s' a = balance_of_impl s a) := by
  constructor
  · intro hlt
    exact transfer_from_to_insufficient s caller dst value hlt
  · intro hge hne
    have hb := credit_bound s caller dst value hge hwf
    have hE := transfer_from_to_success s caller dst value (not_lt.mpr hge) hb
    refine ⟨_, hE, ?_, ?_, ?_, ?_⟩
    · simp only [balance_of_impl, mgetD_minsert_ne _ dst _ caller hne, mgetD_minsert_self]
    · rw [show (balance_of_impl
          { total_supply := s.total_supply
            balances := minsert (minsert s.balances caller (balance_of_impl s caller - value))
              dst (mgetD (minsert s.balances caller (balance_of_impl s caller - value)) dst
                + value)
            allowances := s.allowances
            events := s.events ++ [Event.transferEv (some caller) (some dst) value] } dst)
          = mgetD (minsert s.balances caller (balance_of_impl s caller - value)) dst + value
          from by simp [balance_of_impl, mgetD_minsert_self]]
      rw [mgetD_minsert_ne s.balances caller _ dst (fun hh => hne hh.symm)]
      rfl
    · exact (transfer_from_to_frame s caller dst value _ _ hE).2.2
    · intro a ha1 ha2
      simp only [balance_of_impl, mgetD_minsert_ne _ dst _ a ha2,
        mgetD_minsert_ne s.balances caller _ a ha1]

/-- Witness for C4: supply 10000 at account 0, transfer of 12 to account 1. -/
theorem transfer_balance_check_witness :
    (balance_of_impl (Erc20.new 10000 0) 0 < 12 →
       transfer (Erc20.new 10000 0) 0 1 12 =
         some (Erc20.new 10000 0, .err .InsufficientBalance)) ∧
    (12 ≤ balance_of_impl (Erc20.new 10000 0) 0 → (0 : Nat) ≠ 1 →
       ∃ s', transfer (Erc20.new 10000 0) 0 1 12 = some (s', .ok) ∧
         balance_of_impl s' 0 = balance_of_impl (Erc20.new 10000 0) 0 - 12 ∧
         balance_of_impl s' 1 = balance_of_impl (Erc20.new 10000 0) 1 + 12 ∧
         sumValues s'.balances = sumValues (Erc20.new 10000 0).balances ∧
         ∀ a, a ≠ 0 → a ≠ 1 → balance_of_impl s' a = balance_of_impl (Erc20.new 10000 0) a) :=
  transfer_balance_check (Erc20.new 10000 0) 0 1 12 (by decide)

/-- C5: the credit in the balance move is overflow-checked: when the sum
`to_balance + value` would exceed the `u128` range the move traps fatally
(`none`) instead of wrapping, and a checked addition that returns a value
always returns the exact mathematical sum, in range. -/
theorem credit_overflow_is_fatal (s : Erc20) (src dst value : Nat)
    (hge : value ≤ balance_of_impl s src) (hne : dst ≠ src)
    (hover : 2 ^ 128 ≤ balance_of_impl s dst + value) :
    transfer_from_to s src dst value = none ∧
    ∀ a b r, checkedAdd a b = some r → r = a + b ∧ r < 2 ^ 128 := by
  constructor
  · apply transfer_from_to_overflow s src dst value (not_lt.mpr hge)
    rw [mgetD_minsert_ne s.balances src _ dst hne]
    simp only [balance_of_impl] at hover
    omega
  · intro a b r h
    simp only [checkedAdd] at h
    by_cases hc : a + b < 2 ^ 128
    · rw [if_pos hc] at h
      simp only [Option.some.injEq] at h
      exact ⟨h.symm, h ▸ hc⟩
    · rw [if_neg hc] at h
      exact Option.noConfusion h

/-- Witness for C5: a recipient balance of `2 ^ 128 - 1` plus 1 traps. -/
theorem credit_overflow_is_fatal_witness :
    transfer_from_to
        { total_supply := 0, balances := [(0, 1), (1, 2 ^ 128 - 1)],
          allowances := [], events := [] } 0 1 1 = none ∧
      ∀ a b r, checkedAdd a b = some r → r = a + b ∧ r < 2 ^ 128 :=
  credit_overflow_is_fatal
    { total_supply := 0, balances := [(0, 1), (1, 2 ^ 128 - 1)],
      allowances := [], events := [] } 0 1 1 (by decide) (by decide) (by decide)

/-- C7: a self-transfer succeeds exactly when the caller's balance covers
`value`; on success every account's balance is unchanged, yet the `Transfer`
event is still emitted. -/
theorem self_transfer_noop (s : Erc20) (caller value : Nat)
    (hwf : sumValues s.balances < 2 ^ 128) :
    (balance_of_impl s caller < value →
       transfer s caller caller value = some (s, .err .InsufficientBalance)) ∧
    (value ≤ balance_of_impl s caller →
       ∃ s', transfer s caller caller value = some (s', .ok) ∧
         (∀ a, balance_of_impl s' a = balance_of_impl s a) ∧
         s'.events = s.events ++ [Event.transferEv (some caller) (some caller) value]) := by
  constructor
  · intro hlt
    exact transfer_from_to_insufficient s caller caller value hlt
  · intro hge
    have hb := credit_bound s caller caller value hge hwf
    have hE := transfer_from_to_success s caller caller value (not_lt.mpr hge) hb
    refine ⟨_, hE, ?_, rfl⟩
    intro a
    by_cases ha : a = caller
    · subst ha
      simp only [balance_of_impl, mgetD_minsert_self]
      simp only [balance_of_impl] at hge
      omega
    · simp only [balance_of_impl, mgetD_minsert_ne _ caller _ a ha]

/-- Witness for C7: account 2 holding the whole supply of 50 sends itself 50. -/
theorem self_transfer_noop_witness :
    (balance_of_impl (Erc20.new 50 2) 2 < 50 →
       transfer (Erc20.new 50 2) 2 2 50 =
         some (Erc20.new 50 2, .err .InsufficientBalance)) ∧
    (50 ≤ balance_of_impl (Erc20.new 50 2) 2 →
       ∃ s', transfer (Erc20.new 50 2) 2 2 50 = some (s', .ok) ∧
         (∀ a, balance_of_impl s' a = balance_of_impl (Erc20.new 50 2) a) ∧
         s'.events = (Erc20.new 50 2).events ++ [Event.transferEv (some 2) (some 2) 50]) :=
  self_transfer_noop (Erc20.new 50 2) 2 50 (by decide)

/-- C10: a successful delegated transfer with `to = from` leaves every balance
unchanged but still consumes the allowance. -/
theorem transfer_from_self_dest_consumes_allowance (s : Erc20) (caller src value : Nat)
    (hal : value ≤ allowance_impl s src caller)
    (hbal : value ≤ balance_of_impl s src)
    (hwf : sumValues s.balances < 2 ^ 128) :
    ∃ s', transfer_from s caller src src value = some (s', .ok) ∧
      (∀ a, balance_of_impl s' a = balance_of_impl s a) ∧
      allowance_impl s' src caller = allowance_impl s src caller - value := by
  have haln : ¬ allowance_impl s src caller < value := not_lt.mpr hal
  have hb := credit_bound s src src value hbal hwf
  have hE := transfer_from_to_success s src src value (not_lt.mpr hbal) hb
  refine ⟨{ total_supply := s.total_supply
            balances := minsert (minsert s.balances src (balance_of_impl s src - value)) src
              (mgetD (minsert s.balances src (balance_of_impl s src - value)) src + value)
            allowances := minsert s.allowances (src, caller)
              (allowance_impl s src caller - value)
            events := s.events ++ [Event.transferEv (some src) (some src) value] },
          ?_, ?_, ?_⟩
  · simp only [transfer_from, if_neg haln, hE]
  · intro a
    by_cases ha : a = src
    · subst ha
      simp only [balance_of_impl, mgetD_minsert_self]
      simp only [balance_of_impl] at hbal
      omega
    · simp only [balance_of_impl, mgetD_minsert_ne _ src _ a ha]
  · simp [allowance_impl, mgetD_minsert_self]

/-- Witness for C10: allowance 30 for caller 1 on owner 0, self-destination
delegated transfer of 30. -/
theorem transfer_from_self_dest_consumes_allowance_witness :
    ∃ s', transfer_from (approve (Erc20.new 100 0) 0 1 30).1 1 0 0 30 = some (s', .ok) ∧
      (∀ a, balance_of_impl s' a = balance_of_impl (approve (Erc20.new 100 0) 0 1 30).1 a) ∧
      allowance_impl s' 0 1 = allowance_impl (approve (Erc20.new 100 0) 0 1 30).1 0 1 - 30 :=
  transfer_from_self_dest_consumes_allowance (approve (Erc20.new 100 0) 0 1 30).1 1 0 30
    (by decide) (by decide) (by decide)
